import Mathlib

/-!
Verification development for the vinilsul scraping repository.

Shallow embedding of the two source files:
  * `vinilsul_scraper.py` (JSON variant): BFS discovery of product URLs over
    paginated listing pages (`discover_product_urls`), per-product extraction
    (`scrape_product_details`) and the orchestration loop in `main`.
  * `vinilsul_scraper_csv_sku.py` (CSV variant): the pagination `while` loop of
    `VinilSulScraper.run` together with `_parse_product_links` and
    `_get_next_page`.

HTML documents are modelled as a tree of element/text nodes carrying the
attributes the selectors of the code consult (tag, id, class list, href).
Network fetches are oracles `String → Option Node`; `fetch_html` returning
`None` is `none`.  Python string operations are re-implemented over character
lists so that the kernel can evaluate them (Python `str.strip`/`str.lower` act
on more Unicode, but agree with these models on the character ranges handled
here, which cover the Latin-1 text of the site).
-/

/-! ## Python string primitives, modelled over character lists -/

/-- Whitespace recognised by `str.strip()` (ASCII subset). -/
def isWsChar (c : Char) : Bool :=
  c = ' ' || c = '\t' || c = '\n' || c = '\r' || c = '\x0b' || c = '\x0c'

/-- `str.strip()` on a character list. -/
def trimChars (l : List Char) : List Char :=
  ((l.dropWhile isWsChar).reverse.dropWhile isWsChar).reverse

/-- `str.strip()`. -/
def strTrim (s : String) : String := String.mk (trimChars s.data)

/-- `str.lower()` for ASCII letters and the Latin-1 uppercase range
(`À`..`Þ` except `×`), which covers the Portuguese text in the sources. -/
def lowerChar (c : Char) : Char :=
  if 'A' ≤ c ∧ c ≤ 'Z' then Char.ofNat (c.toNat + 32)
  else if 0xC0 ≤ c.toNat ∧ c.toNat ≤ 0xDE ∧ c.toNat ≠ 0xD7 then Char.ofNat (c.toNat + 32)
  else c

/-- `str.lower()`. -/
def strLower (s : String) : String := String.mk (s.data.map lowerChar)

/-- `pat.isPrefix(s)`: does `s` start with `pat`?  (`str.startswith`). -/
def startsWithChars : List Char → List Char → Bool
  | [], _ => true
  | _ :: _, [] => false
  | p :: ps, c :: cs => p = c && startsWithChars ps cs

/-- The Python `pat in s` substring test. -/
def containsChars (pat : List Char) : List Char → Bool
  | [] => startsWithChars pat []
  | c :: cs => startsWithChars pat (c :: cs) || containsChars pat cs

/-- The Python `pat in s` on strings. -/
def strContainsStr (s pat : String) : Bool := containsChars pat.data s.data

/-- One pass implementing `.replace("<br/>", "<br>").replace("<br />", "<br>")`
from `scrape_product_details`; the two patterns cannot overlap each other or the
replacement, so a single left-to-right pass coincides with the two sequential
`str.replace` calls. -/
def normBrChars : List Char → List Char
  | '<' :: 'b' :: 'r' :: '/' :: '>' :: rest => '<' :: 'b' :: 'r' :: '>' :: normBrChars rest
  | '<' :: 'b' :: 'r' :: ' ' :: '/' :: '>' :: rest => '<' :: 'b' :: 'r' :: '>' :: normBrChars rest
  | c :: rest => c :: normBrChars rest
  | [] => []

/-- `s.split("<br>")` (accumulator holds the current segment reversed). -/
def splitBrAux : List Char → List Char → List (List Char)
  | acc, '<' :: 'b' :: 'r' :: '>' :: rest => acc.reverse :: splitBrAux [] rest
  | acc, c :: rest => splitBrAux (c :: acc) rest
  | acc, [] => [acc.reverse]

/-- `s.split(":", 1)`: `none` when the string has no colon, otherwise the parts
before and after the first colon. -/
def splitColonAux : List Char → List Char → Option (List Char × List Char)
  | acc, ':' :: rest => some (acc.reverse, rest)
  | acc, c :: rest => splitColonAux (c :: acc) rest
  | _, [] => none

/-- `sep.join` specialised to the separators used by `get_text`. -/
def joinSep (sep : String) : List String → String
  | [] => ""
  | [s] => s
  | s :: rest => s ++ sep ++ joinSep sep rest

/-- Entity unescaping done by the HTML parser on text content (the three
entities the serialiser produces). -/
def unescChars : List Char → List Char
  | '&' :: 'a' :: 'm' :: 'p' :: ';' :: rest => '&' :: unescChars rest
  | '&' :: 'l' :: 't' :: ';' :: rest => '<' :: unescChars rest
  | '&' :: 'g' :: 't' :: ';' :: rest => '>' :: unescChars rest
  | c :: rest => c :: unescChars rest
  | [] => []

mutual

/-- Text chunks of a flat markup fragment: the maximal runs of characters
outside `<...>` tags, in order.  First argument is the current chunk,
reversed. -/
def textChunks : List Char → List Char → List (List Char)
  | acc, [] => [acc.reverse]
  | acc, '<' :: rest => acc.reverse :: inTagChunk rest
  | acc, c :: rest => textChunks (c :: acc) rest

/-- Helper of `textChunks`: skip to the closing `>` of a tag. -/
def inTagChunk : List Char → List (List Char)
  | [] => []
  | '>' :: rest => textChunks [] rest
  | _ :: rest => inTagChunk rest

end

/-- `BeautifulSoup(fragment, "lxml").get_text(" ", strip=True)`: text outside
tags, entities decoded, each text run stripped, empties dropped, the rest
joined with single spaces. -/
def getTextFragment (s : String) : String :=
  joinSep " "
    (((textChunks [] s.data).map (fun cs => String.mk (trimChars (unescChars cs)))).filter
      (fun t => t ≠ ""))

/-! ## HTML document model -/

/-- An HTML node: either a text node or an element with the attributes the
selectors of the scrapers consult. -/
inductive Node where
  | text (s : String)
  | elem (tag : String) (idattr : Option String) (classes : List String)
      (hrefattr : Option String) (children : List Node)

mutual

/-- All nodes of a subtree in document (pre-)order, the node itself first;
this is the BeautifulSoup `.descendants` / `.next_elements` order. -/
def preorder : Node → List Node
  | .text s => [Node.text s]
  | .elem t i c h ch => Node.elem t i c h ch :: preorderList ch

/-- `preorder` mapped over a forest, concatenated. -/
def preorderList : List Node → List Node
  | [] => []
  | n :: ns => preorder n ++ preorderList ns

end

/-- Proper descendants of a node in document order. -/
def descendantsOf : Node → List Node
  | .text _ => []
  | .elem _ _ _ _ ch => preorderList ch

/-- `element.select(sel)` for a selector matched by the predicate `p`:
matching descendants in document order. -/
def selectAll (p : Node → Bool) (n : Node) : List Node := (descendantsOf n).filter p

/-- `element.select_one(sel)` / `element.find(sel)`: first matching
descendant in document order. -/
def selectOne (p : Node → Bool) (n : Node) : Option Node := (descendantsOf n).find? p

def nodeTag : Node → String
  | .text _ => ""
  | .elem t _ _ _ _ => t

def isTagB (t : String) : Node → Bool
  | .text _ => false
  | .elem t' _ _ _ _ => t' = t

def hasClassB (c : String) : Node → Bool
  | .text _ => false
  | .elem _ _ cs _ _ => cs.contains c

def hasIdB (i : String) : Node → Bool
  | .text _ => false
  | .elem _ i' _ _ _ => i' = some i

/-- `element.get("href")`. -/
def hrefOf : Node → Option String
  | .text _ => none
  | .elem _ _ _ h _ => h

/-- The strings of the text nodes of a subtree, in document order. -/
def textsOf (n : Node) : List String :=
  (preorder n).filterMap (fun m => match m with | .text s => some s | _ => none)

/-- `element.get_text(sep, strip=True)`. -/
def getTextStrip (sep : String) (n : Node) : String :=
  joinSep sep ((textsOf n).map strTrim |>.filter (fun t => t ≠ ""))

/-- Escaping applied by BeautifulSoup when serialising text content. -/
def escChar (c : Char) : String :=
  if c = '&' then "&amp;" else if c = '<' then "&lt;" else if c = '>' then "&gt;"
  else String.mk [c]

def escapeStr (s : String) : String := (s.data.map escChar).foldr (· ++ ·) ""

/-- Attribute part of a serialised start tag. -/
def attrsStr (i : Option String) (cs : List String) (h : Option String) : String :=
  (match i with | some v => " id=\"" ++ v ++ "\"" | none => "") ++
  (match cs with | [] => "" | _ => " class=\"" ++ joinSep " " cs ++ "\"") ++
  (match h with | some v => " href=\"" ++ v ++ "\"" | none => "")

mutual

/-- BeautifulSoup serialisation of a node (`str(tag)`); void `br` elements
render as `<br/>`. -/
def render : Node → String
  | .text s => escapeStr s
  | .elem t i c h ch =>
    if t = "br" then "<br" ++ attrsStr i c h ++ "/>"
    else "<" ++ t ++ attrsStr i c h ++ ">" ++ renderList ch ++ "</" ++ t ++ ">"

/-- `render` over a forest. -/
def renderList : List Node → String
  | [] => ""
  | n :: ns => render n ++ renderList ns

end

/-- `tag.decode_contents()`: the serialised children of an element. -/
def decodeContents : Node → String
  | .text _ => ""
  | .elem _ _ _ _ ch => renderList ch

/-! ## Module 1 of `vinilsul_scraper.py`: `discover_product_urls`

The HTTP session is abstracted into an oracle `fetch : String → Option Node`
(`fetch_html` returning the parsed page, or `none` on request failure) and
`urljoin` into an oracle `abs : String → String → String` (`absolute_url`);
both are fixed for one run, matching the deterministic-graph reading of the
spec.  The `while queue` loop is embedded with an explicit iteration budget
`fuel`; `none` means the budget was exhausted with a non-empty queue, so
termination of the Python loop is `∃ fuel, discoverAux … = some _`. -/

/-- Matches selector `a.button.product_type_simple`. -/
def isProductAnchor (n : Node) : Bool :=
  isTagB "a" n && hasClassB "button" n && hasClassB "product_type_simple" n

/-- Matches selector `a.next.page-numbers`. -/
def isNextAnchor (n : Node) : Bool :=
  isTagB "a" n && hasClassB "next" n && hasClassB "page-numbers" n

/-- The `href` values collected by the product-link loop of
`discover_product_urls` (falsy hrefs are skipped by `if not href`). -/
def productHrefs (soup : Node) : List String :=
  (selectAll isProductAnchor soup).filterMap
    (fun a => match hrefOf a with
      | none => none
      | some h => if h = "" then none else some h)

/-- The absolute next-page URL computed by `discover_product_urls` from a
fetched listing page, if any (`select_one("a.next.page-numbers")`, falsy
`href` guard, then `absolute_url`). -/
def nextUrlOf (abs : String → String → String) (listingUrl : String) (soup : Node) :
    Option String :=
  match selectOne isNextAnchor soup with
  | none => none
  | some a =>
    match hrefOf a with
    | none => none
    | some h => if h = "" then none else some (abs listingUrl h)

/-- `set.add`: membership-based insertion, modelling the `product_urls` set as
an insertion-ordered duplicate-free list. -/
def insertSet (l : List String) (x : String) : List String :=
  if x ∈ l then l else l ++ [x]

def insertAllSet (l : List String) (xs : List String) : List String :=
  xs.foldl insertSet l

/-- State of one `discover_product_urls` run.  `queue`, `visited` and
`products` model the Python `queue`/`visited_listing_pages`/`product_urls`;
the three trace fields are history variables recording every product URL
added (with duplicates), every URL passed to `fetch_html`, and every URL
appended to the queue by the next-page branch, in order. -/
structure DState where
  queue : List String
  visited : List String
  products : List String
  prodTrace : List String
  fetchTrace : List String
  enqTrace : List String
deriving DecidableEq

/-- The body of the `while queue` loop for a not-yet-visited page `u`
(`st.queue` is already the rest of the queue): mark visited, fetch, collect
product links, follow the next-page link if it is not visited. -/
def visitPage (fetch : String → Option Node) (abs : String → String → String)
    (u : String) (st : DState) : DState :=
  match fetch u with
  | none => { st with visited := st.visited ++ [u], fetchTrace := st.fetchTrace ++ [u] }
  | some soup =>
    match nextUrlOf abs u soup with
    | none =>
      { st with visited := st.visited ++ [u], fetchTrace := st.fetchTrace ++ [u],
                prodTrace := st.prodTrace ++ (productHrefs soup).map (abs u),
                products := insertAllSet st.products ((productHrefs soup).map (abs u)) }
    | some nu =>
      if nu ∈ st.visited ++ [u] then
        { st with visited := st.visited ++ [u], fetchTrace := st.fetchTrace ++ [u],
                  prodTrace := st.prodTrace ++ (productHrefs soup).map (abs u),
                  products := insertAllSet st.products ((productHrefs soup).map (abs u)) }
      else
        { st with visited := st.visited ++ [u], fetchTrace := st.fetchTrace ++ [u],
                  prodTrace := st.prodTrace ++ (productHrefs soup).map (abs u),
                  products := insertAllSet st.products ((productHrefs soup).map (abs u)),
                  queue := st.queue ++ [nu], enqTrace := st.enqTrace ++ [nu] }

/-- One iteration of the `while queue` loop on dequeued head `u`. -/
def discoverStep (fetch : String → Option Node) (abs : String → String → String)
    (u : String) (rest : List String) (st : DState) : DState :=
  if u ∈ st.visited then { st with queue := rest }
  else visitPage fetch abs u { st with queue := rest }

/-- The `while queue` loop of `discover_product_urls`, with iteration budget
`fuel`; `none` means the budget ran out before the queue emptied. -/
def discoverAux (fetch : String → Option Node) (abs : String → String → String) :
    Nat → DState → Option DState
  | fuel, st =>
    match st.queue with
    | [] => some st
    | u :: rest =>
      match fuel with
      | 0 => none
      | fuel' + 1 => discoverAux fetch abs fuel' (discoverStep fetch abs u rest st)

def initDState (start_urls : List String) : DState :=
  ⟨start_urls, [], [], [], [], []⟩

/-- `discover_product_urls(start_urls)`: run the traversal and return
`sorted(product_urls)` (lexicographic string order, as in Python). -/
def discover_product_urls (fetch : String → Option Node) (abs : String → String → String)
    (fuel : Nat) (start_urls : List String) : Option (List String) :=
  (discoverAux fetch abs fuel (initDState start_urls)).map
    (fun st => List.insertionSort (· ≤ ·) st.products)

/-! ## Module 2 of `vinilsul_scraper.py`: `scrape_product_details`

The fetch is again an oracle: the function receives the result of `fetch_html` for
the product URL.  Each field is computed by its own extractor, mirroring the
independent `try`-guarded blocks of the source; in this pure model the guarded
bodies cannot raise, so each `except` arm is dead and every extractor is the
happy path of its block. -/

/-- Selector `h2.product_title.entry-title`. -/
def isTitleSel (n : Node) : Bool :=
  isTagB "h2" n && hasClassB "product_title" n && hasClassB "entry-title" n

/-- Selector `div.woocommerce-product-details__short-description`. -/
def isShortDescSel (n : Node) : Bool :=
  isTagB "div" n && hasClassB "woocommerce-product-details__short-description" n

/-- Selector `span.posted_in`. -/
def isPostedIn (n : Node) : Bool := isTagB "span" n && hasClassB "posted_in" n

/-- Selector `span.tagged_as`. -/
def isTaggedAs (n : Node) : Bool := isTagB "span" n && hasClassB "tagged_as" n

/-- Selector `div#tab-description`. -/
def isTabDesc (n : Node) : Bool := isTagB "div" n && hasIdB "tab-description" n

/-- `title_el.get_text(strip=True) if title_el else None`. -/
def extractTitle (soup : Node) : Option String :=
  match selectOne isTitleSel soup with
  | some el => some (getTextStrip "" el)
  | none => none

/-- `sd_el.get_text(" ", strip=True) if sd_el else None`. -/
def extractShortDescription (soup : Node) : Option String :=
  match selectOne isShortDescSel soup with
  | some el => some (getTextStrip " " el)
  | none => none

/-- The `categories`/`tags` inner loop: texts of the anchors inside the
container, stripped, empty ones skipped. -/
def anchorTexts (container : Node) : List String :=
  (selectAll (isTagB "a") container).filterMap
    (fun a => let t := strTrim (getTextStrip "" a); if t = "" then none else some t)

def extractCategories (soup : Node) : List String :=
  match selectOne isPostedIn soup with
  | none => []
  | some sp => anchorTexts sp

def extractTags (soup : Node) : List String :=
  match selectOne isTaggedAs soup with
  | none => []
  | some sp => anchorTexts sp

/-- `"vantagens" in h2.get_text(" ", strip=True).lower()`. -/
def h2HasVantagens (n : Node) : Bool :=
  strContainsStr (strLower (getTextStrip " " n)) "vantagens"

/-- The advantages block: inside `div#tab-description`, the first `h2` whose
text contains "vantagens"; from it, `find_next("ul")` walks the rest of the
document in document order (BeautifulSoup `next_elements`); each `li` of
that list contributes its non-empty text.  Positions: the descendants of the
node at index `i` of the document-order list are the block that follows it,
so the `h2` found at offset `k` among them sits at global index `i + 1 + k`
and `find_next` scans the nodes after that index. -/
def extractAdvantages (soup : Node) : List String :=
  let full := descendantsOf soup
  match full.findIdx? isTabDesc with
  | none => []
  | some i =>
    let dt := full.getD i (Node.text "")
    match (descendantsOf dt).findIdx? (fun n => isTagB "h2" n && h2HasVantagens n) with
    | none => []
    | some k =>
      match (full.drop (i + 1 + k + 1)).find? (isTagB "ul") with
      | none => []
      | some ul =>
        ((descendantsOf ul).filter (isTagB "li")).filterMap
          (fun li => let t := getTextStrip " " li; if t = "" then none else some t)

/-- `p.find("strong")` exists and its text contains "informações técnicas". -/
def pIsTechTarget (p : Node) : Bool :=
  match selectOne (isTagB "strong") p with
  | none => false
  | some s => strContainsStr (strLower (getTextStrip " " s)) "informações técnicas"

/-- Python `dict` assignment `m[k] = v`: an existing key keeps its insertion
position and gets the new value (last-wins); a new key is appended. -/
def dictInsert (m : List (String × String)) (k v : String) : List (String × String) :=
  if m.any (fun kv => kv.1 = k) then m.map (fun kv => if kv.1 = k then (k, v) else kv)
  else m ++ [(k, v)]

/-- One iteration of the `for part in parts` loop of the technical-info
parser. -/
def techStep (m : List (String × String)) (part : String) : List (String × String) :=
  if part = "" then m
  else if getTextFragment part = "" then m
  else if startsWithChars "informações técnicas".data (strLower (getTextFragment part)).data then m
  else
    match splitColonAux [] (getTextFragment part).data with
    | none => m
    | some (k, v) =>
      if String.mk (trimChars k) = "" then m
      else dictInsert m (String.mk (trimChars k)) (String.mk (trimChars v))

/-- Lines 225–246 of `scrape_product_details`: normalise `<br>` variants,
split the inner markup of the paragraph on `<br>`, strip each part, and fold the
key/value lines into the mapping. -/
def parseTechnicalInfo (rawHtml : String) : List (String × String) :=
  let normalized := normBrChars rawHtml.data
  let parts := (splitBrAux [] normalized).map (fun cs => String.mk (trimChars cs))
  parts.foldl techStep []

/-- The technical-info block: inside `div#tab-description`, the first `p`
whose first `strong` mentions "informações técnicas"; its
`decode_contents()` feeds `parseTechnicalInfo`. -/
def extractTechnicalInfo (soup : Node) : List (String × String) :=
  match selectOne isTabDesc soup with
  | none => []
  | some dt =>
    match (descendantsOf dt).find? (fun p => isTagB "p" p && pIsTechTarget p) with
    | none => []
    | some p => parseTechnicalInfo (decodeContents p)

/-- The output record of `scrape_product_details`; `technical_info` is the
Python `dict` as its insertion-ordered key/value list. -/
structure ProductRecord where
  url : String
  title : Option String
  short_description : Option String
  categories : List String
  tags : List String
  advantages : List String
  technical_info : List (String × String)
deriving DecidableEq

/-- The record returned when `fetch_html` fails (lines 133–142), also the
placeholder appended by the `except` arm of `main`. -/
def emptyProductRecord (url : String) : ProductRecord :=
  ⟨url, none, none, [], [], [], []⟩

/-- `scrape_product_details(product_url)`, with the fetched page passed in as
the result of `fetch_html` passed in. -/
def scrape_product_details (fetched : Option Node) (product_url : String) : ProductRecord :=
  match fetched with
  | none => emptyProductRecord product_url
  | some soup =>
    { url := product_url
      title := extractTitle soup
      short_description := extractShortDescription soup
      categories := extractCategories soup
      tags := extractTags soup
      advantages := extractAdvantages soup
      technical_info := extractTechnicalInfo soup }

/-- The per-product loop of `main` (lines 272–289): one record per URL, in
order; a fetch failure for a URL yields `emptyProductRecord` for it via
the early return of `scrape_product_details`. -/
def runPipeline (fetch : String → Option Node) (urls : List String) : List ProductRecord :=
  urls.map (fun u => scrape_product_details (fetch u) u)

/-! ## `vinilsul_scraper_csv_sku.py`: the pagination loop of `VinilSulScraper.run`

Page loads by the headless browser are an oracle
`pageContent : String → Option Node` (`none` models a
`PlaywrightTimeoutError`), and the per-product `page.goto` is an oracle
`prodFetch : String → Option Node` (`none` models the exception swallowed by
the inner `except`).  A product appended to `produtos` is represented by its
URL; the fields of the `Produto` record are irrelevant to the pagination
claims settled here, while the control flow of `run` — the `seen_links`
guard, the exception-continue, and every `break` — is kept exactly. -/

mutual

/-- Descendant-combinator select: all elements matched by `p` (which also
sees whether some strict ancestor matched `anc`), in document order. -/
def selCtx (anc : Node → Bool) (p : Bool → Node → Bool) : Bool → Node → List Node
  | _, .text _ => []
  | inside, .elem t i c h ch =>
    (if p inside (Node.elem t i c h ch) then [Node.elem t i c h ch] else []) ++
      selCtxList anc p (inside || anc (Node.elem t i c h ch)) ch

/-- `selCtx` over a forest. -/
def selCtxList (anc : Node → Bool) (p : Bool → Node → Bool) : Bool → List Node → List Node
  | _, [] => []
  | inside, n :: ns => selCtx anc p inside n ++ selCtxList anc p inside ns

end

/-- `li.product`. -/
def isLiProduct (n : Node) : Bool := isTagB "li" n && hasClassB "product" n

/-- `li.product a.woocommerce-LoopProduct-link, li.product
a.woocommerce-loop-product__link`. -/
def primaryLinkPred (inside : Bool) (n : Node) : Bool :=
  inside && isTagB "a" n &&
    (hasClassB "woocommerce-LoopProduct-link" n || hasClassB "woocommerce-loop-product__link" n)

/-- Fallback `li.product a`. -/
def fallbackLinkPred (inside : Bool) (n : Node) : Bool := inside && isTagB "a" n

/-- `_parse_product_links`: primary selector hrefs; if none, any product-card
link whose href contains `/produto/`; finally `list(dict.fromkeys(...))`
(first-occurrence dedup). -/
def parseProductLinks (soup : Node) : List String :=
  let links := (selCtx isLiProduct primaryLinkPred false soup).filterMap
    (fun a => match hrefOf a with | none => none | some h => if h = "" then none else some h)
  let links := if links = [] then
      (selCtx isLiProduct fallbackLinkPred false soup).filterMap
        (fun a => match hrefOf a with
          | none => none
          | some h =>
            if h = "" then none else if strContainsStr h "/produto/" then some h else none)
    else links
  insertAllSet [] links

/-- `li.next`. -/
def isLiNext (n : Node) : Bool := isTagB "li" n && hasClassB "next" n

/-- `a.next, li.next a, a.page-numbers.next`. -/
def nextSelPred (inside : Bool) (n : Node) : Bool :=
  isTagB "a" n &&
    (hasClassB "next" n || inside || (hasClassB "page-numbers" n && hasClassB "next" n))

/-- `_get_next_page`: first match of the grouped selector, with a truthy
`href`. -/
def getNextPage (soup : Node) : Option String :=
  match (selCtx isLiNext nextSelPred false soup).head? with
  | none => none
  | some a =>
    match hrefOf a with
    | none => none
    | some h => if h = "" then none else some h

/-- State of the `run` pagination loop: the loop variable `current_url`, the
`seen_links` set (insertion order), `produtos` (as the processed product
URLs) and a history variable listing every listing page whose content was
obtained, in order. -/
structure CsvState where
  current : String
  seen : List String
  produtos : List String
  pages : List String
deriving DecidableEq

/-- The `for link in product_links` loop of `run`: skip seen links, else mark
seen; a failing product-page load (`except`) is skipped, otherwise the
product is appended. -/
def csvProcessLinks (prodFetch : String → Option Node) (links : List String)
    (st : CsvState) : CsvState :=
  links.foldl
    (fun st link =>
      if link ∈ st.seen then st
      else
        let st1 : CsvState := { st with seen := st.seen ++ [link] }
        match prodFetch link with
        | none => st1
        | some _ => { st1 with produtos := st1.produtos ++ [link] })
    st

/-- The `while current_url` loop of `run` (lines 200–236), with iteration
budget `fuel`; every `break` returns `some`, and `none` means the budget was
exhausted while the loop was still going. -/
def csvIter (pageContent : String → Option Node) (prodFetch : String → Option Node) :
    Nat → CsvState → Option CsvState
  | 0, _ => none
  | fuel + 1, st =>
    match pageContent st.current with
    | none => some st
    | some h =>
      let st1 : CsvState := { st with pages := st.pages ++ [st.current] }
      let links := parseProductLinks h
      if links = [] then some st1
      else
        let st2 := csvProcessLinks prodFetch links st1
        match getNextPage h with
        | none => some st2
        | some nu =>
          if nu = st2.current then some st2
          else csvIter pageContent prodFetch fuel { st2 with current := nu }

def initCsvState (base_url : String) : CsvState := ⟨base_url, [], [], []⟩

/-- Termination of the `run` pagination loop from a given state: some finite
iteration budget makes the loop reach one of its `break`s. -/
def CsvRunTerminates (pageContent prodFetch : String → Option Node) (st : CsvState) : Prop :=
  ∃ fuel r, csvIter pageContent prodFetch fuel st = some r

/-! ## Helper lemmas -/

theorem trimChars_eq_rdropWhile (x : List Char) :
    trimChars x = List.rdropWhile isWsChar (x.dropWhile isWsChar) := rfl

theorem head_dropWhile_false (l : List Char) (c : Char) (rest : List Char)
    (h : l.dropWhile isWsChar = c :: rest) : isWsChar c = false := by
  induction l with
  | nil => cases h
  | cons a l' ih =>
    rw [List.dropWhile_cons] at h
    by_cases hp : isWsChar a
    · rw [if_pos hp] at h
      exact ih h
    · rw [if_neg hp] at h
      cases h
      simpa using hp

theorem dropWhile_trimChars (l : List Char) :
    (trimChars l).dropWhile isWsChar = trimChars l := by
  cases htr : trimChars l with
  | nil => simp
  | cons c cs =>
    have hpref : trimChars l <+: l.dropWhile isWsChar := by
      rw [trimChars_eq_rdropWhile]
      exact List.rdropWhile_prefix isWsChar _
    rw [htr] at hpref
    obtain ⟨t, ht⟩ := hpref
    have hm : l.dropWhile isWsChar = c :: (cs ++ t) := by
      rw [← ht]
      simp
    have hc := head_dropWhile_false l c (cs ++ t) hm
    rw [List.dropWhile_cons, hc]
    simp

theorem trimChars_idem (l : List Char) : trimChars (trimChars l) = trimChars l := by
  conv_lhs => rw [trimChars_eq_rdropWhile, dropWhile_trimChars,
    trimChars_eq_rdropWhile, List.rdropWhile_idempotent]
  exact (trimChars_eq_rdropWhile l).symm

theorem strTrim_mk_trimChars (l : List Char) :
    strTrim (String.mk (trimChars l)) = String.mk (trimChars l) := by
  show String.mk (trimChars (trimChars l)) = String.mk (trimChars l)
  rw [trimChars_idem]

/-- Keys of a technical-info mapping are non-empty and already stripped. -/
def GoodKeys (m : List (String × String)) : Prop :=
  ∀ kv ∈ m, kv.1 ≠ "" ∧ strTrim kv.1 = kv.1

theorem goodKeys_dictInsert {m : List (String × String)} {k v : String}
    (hm : GoodKeys m) (hk : k ≠ "") (hk' : strTrim k = k) : GoodKeys (dictInsert m k v) := by
  intro kv hkv
  unfold dictInsert at hkv
  by_cases hmem : m.any (fun kv => kv.1 = k)
  · rw [if_pos hmem] at hkv
    obtain ⟨kv', hkv', heq⟩ := List.mem_map.mp hkv
    by_cases hcase : kv'.1 = k
    · rw [if_pos hcase] at heq
      rw [← heq]
      exact ⟨hk, hk'⟩
    · rw [if_neg hcase] at heq
      rw [← heq]
      exact hm kv' hkv'
  · rw [if_neg hmem] at hkv
    rcases List.mem_append.mp hkv with h | h
    · exact hm kv h
    · rw [List.mem_singleton.mp h]
      exact ⟨hk, hk'⟩

theorem goodKeys_techStep {m : List (String × String)} (part : String)
    (hm : GoodKeys m) : GoodKeys (techStep m part) := by
  unfold techStep
  split
  · exact hm
  · split
    · exact hm
    · split
      · exact hm
      · split
        · exact hm
        · split
          · exact hm
          · exact goodKeys_dictInsert hm (by assumption) (strTrim_mk_trimChars _)

theorem goodKeys_foldl (parts : List String) :
    ∀ m : List (String × String), GoodKeys m → GoodKeys (parts.foldl techStep m) := by
  induction parts with
  | nil => intro m hm; exact hm
  | cons p ps ih => intro m hm; exact ih _ (goodKeys_techStep p hm)

/-! ## Claims -/

/-- A concrete product page for claim C6: the description tab holds a
paragraph whose bold lead-in is `Informações Técnicas:` followed by the
content `Cor: Azul<br>Tamanho: M<br>Cor: Vermelho`. -/
def techDoc : Node :=
  Node.elem "html" none [] none
    [Node.elem "body" none [] none
      [Node.elem "div" (some "tab-description") [] none
        [Node.elem "p" none [] none
          [Node.elem "strong" none [] none [Node.text "Informações Técnicas:"],
           Node.text " ",
           Node.elem "br" none [] none [],
           Node.text "Cor: Azul",
           Node.elem "br" none [] none [],
           Node.text "Tamanho: M",
           Node.elem "br" none [] none [],
           Node.text "Cor: Vermelho"]]]]

/-- C6: on a description tab whose technical-info paragraph has a bold
lead-in matching `Informações Técnicas` and content
`Informações Técnicas: <br>Cor: Azul<br>Tamanho: M<br>Cor: Vermelho`, the
extraction yields exactly `{"Cor": "Vermelho", "Tamanho": "M"}`: segments are
split on `<br>`, the lead-in line is excluded, a colon-less segment adds
nothing, each kept segment splits on its first colon with both sides
trimmed, and a later duplicate key overwrites the earlier value. -/
theorem C6_technical_info_example :
    extractTechnicalInfo techDoc = [("Cor", "Vermelho"), ("Tamanho", "M")] ∧
    parseTechnicalInfo "Informações Técnicas: <br>Cor: Azul<br>Tamanho: M<br>Cor: Vermelho" =
      [("Cor", "Vermelho"), ("Tamanho", "M")] ∧
    parseTechnicalInfo "Informações Técnicas: <br>sem separador<br>Cor: Azul" =
      [("Cor", "Azul")] := by
  refine ⟨?_, ?_, ?_⟩ <;> decide

/-- C10: every key of the technical_info mapping returned by the parser is a
non-empty, already-stripped string (so it stays non-empty after trimming);
segments whose pre-colon text strips to the empty string contribute no
entry. -/
theorem C10_technical_info_keys (raw k v : String)
    (h : (k, v) ∈ parseTechnicalInfo raw) : k ≠ "" ∧ strTrim k = k := by
  have := goodKeys_foldl
    ((splitBrAux [] (normBrChars raw.data)).map (fun cs => String.mk (trimChars cs)))
    [] (by intro kv hkv; cases hkv)
  exact this (k, v) h

/-- Witness for C10 at a concrete paragraph content; the `: vazio` segment,
whose pre-colon text is empty, is dropped while `Tamanho: M` is kept. -/
theorem C10_technical_info_keys_witness :
    (("Tamanho", "M") ∈ parseTechnicalInfo "Informações Técnicas: <br>: vazio<br>Tamanho: M") ∧
    ("Tamanho" ≠ "" ∧ strTrim "Tamanho" = "Tamanho") :=
  ⟨by decide, C10_technical_info_keys "Informações Técnicas: <br>: vazio<br>Tamanho: M"
    "Tamanho" "M" (by decide)⟩

/-- C5: `scrape_product_details` is a total function of the fetched markup —
in this embedding each field is, by definition, computed by its own
independent extractor, so the outcome of one field cannot disturb another — and on
markup containing none of the five target selectors it returns the record
with `url` set and every other field `none`/empty. -/
theorem C5_scrape_empty_markup (soup : Node) (url : String)
    (h1 : selectOne isTitleSel soup = none)
    (h2 : selectOne isShortDescSel soup = none)
    (h3 : selectOne isPostedIn soup = none)
    (h4 : selectOne isTaggedAs soup = none)
    (h5 : selectOne isTabDesc soup = none) :
    scrape_product_details (some soup) url = emptyProductRecord url := by
  have hidx : (descendantsOf soup).findIdx? isTabDesc = none := by
    rw [List.findIdx?_eq_none_iff]
    intro x hx
    have := List.find?_eq_none.mp h5 x hx
    simpa using this
  simp [scrape_product_details, emptyProductRecord, extractTitle, extractShortDescription,
    extractCategories, extractTags, extractAdvantages, extractTechnicalInfo,
    h1, h2, h3, h4, h5, hidx]

/-- A product page with none of the selectors `scrape_product_details`
targets. -/
def plainDoc : Node :=
  Node.elem "html" none [] none
    [Node.elem "body" none [] none
      [Node.elem "p" none [] none [Node.text "Página não encontrada"]]]

/-- Witness for C5 at a concrete selector-free page. -/
theorem C5_scrape_empty_markup_witness :
    scrape_product_details (some plainDoc) "https://www.vinilsul.com.br/produto/x/" =
      emptyProductRecord "https://www.vinilsul.com.br/produto/x/" :=
  C5_scrape_empty_markup plainDoc "https://www.vinilsul.com.br/produto/x/" rfl rfl rfl rfl rfl

theorem scrape_url_eq (f : Option Node) (u : String) :
    (scrape_product_details f u).url = u := by
  cases f <;> rfl

theorem runPipeline_filter_of_not_mem (fetch : String → Option Node) (u : String) :
    ∀ urls : List String, u ∉ urls →
      (runPipeline fetch urls).filter (fun r => r.url == u) = [] := by
  intro urls
  induction urls with
  | nil => intro _; rfl
  | cons a rest ih =>
    intro hu
    have ha : a ≠ u := fun h => hu (h ▸ List.mem_cons_self a rest)
    have hrest : u ∉ rest := fun h => hu (List.mem_cons_of_mem a h)
    simp only [runPipeline, List.map_cons, List.filter_cons]
    rw [show ((scrape_product_details (fetch a) a).url == u) = false by
      simp [scrape_url_eq, ha]]
    exact ih hrest

/-- C8: when the fetch fails for a product URL, the pipeline of `main` still
emits exactly one record for that URL — the placeholder with `url` set and
all other fields null/empty — and still emits one record per input URL. -/
theorem C8_fetch_failure_placeholder (fetch : String → Option Node) (urls : List String)
    (u : String) (hnd : urls.Nodup) (hm : u ∈ urls) (hf : fetch u = none) :
    (runPipeline fetch urls).filter (fun r => r.url == u) = [emptyProductRecord u] ∧
    (runPipeline fetch urls).length = urls.length := by
  constructor
  · induction urls with
    | nil => cases hm
    | cons a rest ih =>
      rcases List.mem_cons.mp hm with heq | hmem
      · subst heq
        have hrest : u ∉ rest := (List.nodup_cons.mp hnd).1
        have hnil := runPipeline_filter_of_not_mem fetch u rest hrest
        simp only [runPipeline] at hnil
        have hhead : scrape_product_details (fetch u) u = emptyProductRecord u := by
          rw [hf]
          rfl
        simp only [runPipeline, List.map_cons, List.filter_cons, hhead]
        rw [show ((emptyProductRecord u).url == u) = true by simp [emptyProductRecord]]
        simp only [if_true, hnil]
      · have ha : a ≠ u := by
          intro h
          exact (List.nodup_cons.mp hnd).1 (h ▸ hmem)
        simp only [runPipeline, List.map_cons, List.filter_cons]
        rw [show ((scrape_product_details (fetch a) a).url == u) = false by
          simp [scrape_url_eq, ha]]
        exact ih (List.nodup_cons.mp hnd).2 hmem
  · simp [runPipeline]

/-- Witness for C8: a concrete batch where the fetch fails on the middle URL
but succeeds around it. -/
theorem C8_fetch_failure_placeholder_witness :
    ((runPipeline
        (fun u => if u = "https://v/produto/b/" then none else some plainDoc)
        ["https://v/produto/a/", "https://v/produto/b/", "https://v/produto/c/"]).filter
      (fun r => r.url == "https://v/produto/b/") =
        [emptyProductRecord "https://v/produto/b/"]) ∧
    (runPipeline
        (fun u => if u = "https://v/produto/b/" then none else some plainDoc)
        ["https://v/produto/a/", "https://v/produto/b/", "https://v/produto/c/"]).length =
      ["https://v/produto/a/", "https://v/produto/b/", "https://v/produto/c/"].length :=
  C8_fetch_failure_placeholder _ _ "https://v/produto/b/" (by decide) (by decide) rfl

/-- An `<li>` holding one text entry. -/
def liOf (s : String) : Node := Node.elem "li" none [] none [Node.text s]

/-- Template page for claim C7: the description tab holds a heading whose
text contains "Vantagens" followed in document order by a `<ul>` whose items
are the given texts. -/
def advDoc (items : List String) : Node :=
  Node.elem "html" none [] none
    [Node.elem "body" none [] none
      [Node.elem "div" (some "tab-description") [] none
        [Node.elem "h2" none [] none [Node.text "Vantagens"],
         Node.elem "ul" none [] none (items.map liOf)]]]

/-- A description tab whose heading does not mention the marker word. -/
def advDocNoHeading : Node :=
  Node.elem "html" none [] none
    [Node.elem "div" (some "tab-description") [] none
      [Node.elem "h2" none [] none [Node.text "Descrição"],
       Node.elem "ul" none [] none [liOf "A"]]]

/-- A matching heading with no list anywhere after it. -/
def advDocNoList : Node :=
  Node.elem "html" none [] none
    [Node.elem "div" (some "tab-description") [] none
      [Node.elem "h2" none [] none [Node.text "Vantagens"],
       Node.elem "p" none [] none [Node.text "sem lista"]]]

theorem filter_li_map (items : List String) :
    (preorderList (items.map liOf)).filter (isTagB "li") = items.map liOf := by
  induction items with
  | nil => rfl
  | cons s ss ih =>
    simp only [List.map_cons, preorderList]
    rw [List.filter_append, ih]
    rfl

theorem getText_liOf (s : String) :
    getTextStrip " " (liOf s) = if strTrim s = "" then "" else strTrim s := by
  by_cases h : strTrim s = ""
  · simp [getTextStrip, textsOf, liOf, preorder, preorderList, h, joinSep]
  · simp [getTextStrip, textsOf, liOf, preorder, preorderList, h, joinSep]

theorem extractAdvantages_advDoc (items : List String) :
    extractAdvantages (advDoc items) =
      items.filterMap (fun s => if strTrim s = "" then none else some (strTrim s)) := by
  have hstep : extractAdvantages (advDoc items) =
      ((preorderList (items.map liOf)).filter (isTagB "li")).filterMap
        (fun li => if getTextStrip " " li = "" then none else some (getTextStrip " " li)) := rfl
  rw [hstep, filter_li_map, List.filterMap_map]
  have hfun : ((fun li => if getTextStrip " " li = "" then none else some (getTextStrip " " li))
      ∘ liOf) = fun s => if strTrim s = "" then none else some (strTrim s) := by
    funext s
    simp only [Function.comp, getText_liOf]
    by_cases h : strTrim s = ""
    · simp [h]
    · simp [h]
  rw [hfun]

/-- C7: on a description tab with a heading containing the marker word
(case-insensitively) followed in document order by a list, extraction
returns one entry per list item in document order (the stripped
text, empty items skipped) — in particular `["A", "B"]` for
`<ul><li>A</li><li>B</li></ul>` — and returns the empty list when no
heading matches the marker or no list follows the heading. -/
theorem C7_advantages_extraction :
    (∀ items : List String, extractAdvantages (advDoc items) =
      items.filterMap (fun s => if strTrim s = "" then none else some (strTrim s))) ∧
    extractAdvantages (advDoc ["A", "B"]) = ["A", "B"] ∧
    extractAdvantages advDocNoHeading = [] ∧
    extractAdvantages advDocNoList = [] := by
  refine ⟨extractAdvantages_advDoc, ?_, ?_, ?_⟩ <;> decide

/-! ## Structural lemmas about the discovery loop -/

theorem visitPage_visited (fetch : String → Option Node) (abs : String → String → String)
    (u : String) (st : DState) : (visitPage fetch abs u st).visited = st.visited ++ [u] := by
  unfold visitPage
  cases fetch u with
  | none => rfl
  | some soup =>
    dsimp only
    cases nextUrlOf abs u soup with
    | none => rfl
    | some nu =>
      dsimp only
      by_cases h : nu ∈ st.visited ++ [u]
      · rw [if_pos h]
      · rw [if_neg h]

theorem visitPage_fetchTrace (fetch : String → Option Node) (abs : String → String → String)
    (u : String) (st : DState) : (visitPage fetch abs u st).fetchTrace = st.fetchTrace ++ [u] := by
  unfold visitPage
  cases fetch u with
  | none => rfl
  | some soup =>
    dsimp only
    cases nextUrlOf abs u soup with
    | none => rfl
    | some nu =>
      dsimp only
      by_cases h : nu ∈ st.visited ++ [u]
      · rw [if_pos h]
      · rw [if_neg h]

theorem visitPage_queue_cases (fetch : String → Option Node) (abs : String → String → String)
    (u : String) (st : DState) :
    (visitPage fetch abs u st).queue = st.queue ∨
    ∃ soup nu, fetch u = some soup ∧ nextUrlOf abs u soup = some nu ∧
      nu ∉ st.visited ++ [u] ∧ (visitPage fetch abs u st).queue = st.queue ++ [nu] := by
  unfold visitPage
  cases hf : fetch u with
  | none => exact Or.inl rfl
  | some soup =>
    dsimp only
    cases hn : nextUrlOf abs u soup with
    | none => exact Or.inl rfl
    | some nu =>
      dsimp only
      by_cases h : nu ∈ st.visited ++ [u]
      · rw [if_pos h]
        exact Or.inl rfl
      · rw [if_neg h]
        exact Or.inr ⟨soup, nu, rfl, hn, h, rfl⟩

theorem visitPage_products_prodTrace (fetch : String → Option Node)
    (abs : String → String → String) (u : String) (st : DState) :
    ((visitPage fetch abs u st).products = st.products ∧
      (visitPage fetch abs u st).prodTrace = st.prodTrace) ∨
    ∃ soup, fetch u = some soup ∧
      (visitPage fetch abs u st).products = insertAllSet st.products ((productHrefs soup).map (abs u)) ∧
      (visitPage fetch abs u st).prodTrace = st.prodTrace ++ (productHrefs soup).map (abs u) := by
  unfold visitPage
  cases hf : fetch u with
  | none => exact Or.inl ⟨rfl, rfl⟩
  | some soup =>
    dsimp only
    cases hn : nextUrlOf abs u soup with
    | none => exact Or.inr ⟨soup, rfl, rfl, rfl⟩
    | some nu =>
      dsimp only
      by_cases h : nu ∈ st.visited ++ [u]
      · rw [if_pos h]
        exact Or.inr ⟨soup, rfl, rfl, rfl⟩
      · rw [if_neg h]
        exact Or.inr ⟨soup, rfl, rfl, rfl⟩

theorem discoverAux_queue_nil (fetch : String → Option Node) (abs : String → String → String)
    (fuel : Nat) (st : DState) (h : st.queue = []) :
    discoverAux fetch abs fuel st = some st := by
  unfold discoverAux
  rw [h]

theorem discoverAux_queue_cons_zero (fetch : String → Option Node)
    (abs : String → String → String) (st : DState) (u : String) (rest : List String)
    (h : st.queue = u :: rest) : discoverAux fetch abs 0 st = none := by
  unfold discoverAux
  rw [h]

theorem discoverAux_queue_cons_succ (fetch : String → Option Node)
    (abs : String → String → String) (fuel : Nat) (st : DState) (u : String)
    (rest : List String) (h : st.queue = u :: rest) :
    discoverAux fetch abs (fuel + 1) st =
      discoverAux fetch abs fuel (discoverStep fetch abs u rest st) := by
  conv_lhs => rw [discoverAux]
  rw [h]

/-- Invariant propagation along the discovery loop. -/
theorem discoverAux_induct (fetch : String → Option Node) (abs : String → String → String)
    (P : DState → Prop)
    (hstep : ∀ u rest st, st.queue = u :: rest → P st → P (discoverStep fetch abs u rest st)) :
    ∀ fuel (st r : DState), discoverAux fetch abs fuel st = some r → P st → P r := by
  intro fuel
  induction fuel with
  | zero =>
    intro st r h hP
    cases hq : st.queue with
    | nil =>
      rw [discoverAux_queue_nil fetch abs 0 st hq] at h
      cases h
      exact hP
    | cons u rest =>
      rw [discoverAux_queue_cons_zero fetch abs st u rest hq] at h
      cases h
  | succ fuel ih =>
    intro st r h hP
    cases hq : st.queue with
    | nil =>
      rw [discoverAux_queue_nil fetch abs (fuel + 1) st hq] at h
      cases h
      exact hP
    | cons u rest =>
      rw [discoverAux_queue_cons_succ fetch abs fuel st u rest hq] at h
      exact ih _ _ h (hstep u rest st hq hP)

/-- The loop only returns once the queue is empty. -/
theorem discoverAux_final_queue (fetch : String → Option Node) (abs : String → String → String) :
    ∀ fuel (st r : DState), discoverAux fetch abs fuel st = some r → r.queue = [] := by
  intro fuel
  induction fuel with
  | zero =>
    intro st r h
    cases hq : st.queue with
    | nil =>
      rw [discoverAux_queue_nil fetch abs 0 st hq] at h
      cases h
      exact hq
    | cons u rest =>
      rw [discoverAux_queue_cons_zero fetch abs st u rest hq] at h
      cases h
  | succ fuel ih =>
    intro st r h
    cases hq : st.queue with
    | nil =>
      rw [discoverAux_queue_nil fetch abs (fuel + 1) st hq] at h
      cases h
      exact hq
    | cons u rest =>
      rw [discoverAux_queue_cons_succ fetch abs fuel st u rest hq] at h
      exact ih _ _ h

/-- More fuel does not change a completed run. -/
theorem discoverAux_mono (fetch : String → Option Node) (abs : String → String → String) :
    ∀ fuel (st r : DState), discoverAux fetch abs fuel st = some r →
      discoverAux fetch abs (fuel + 1) st = some r := by
  intro fuel
  induction fuel with
  | zero =>
    intro st r h
    cases hq : st.queue with
    | nil =>
      rw [discoverAux_queue_nil fetch abs 0 st hq] at h
      cases h
      exact discoverAux_queue_nil fetch abs 1 st hq
    | cons u rest =>
      rw [discoverAux_queue_cons_zero fetch abs st u rest hq] at h
      cases h
  | succ fuel ih =>
    intro st r h
    cases hq : st.queue with
    | nil =>
      rw [discoverAux_queue_nil fetch abs (fuel + 1) st hq] at h
      cases h
      exact discoverAux_queue_nil fetch abs (fuel + 2) st hq
    | cons u rest =>
      rw [discoverAux_queue_cons_succ fetch abs fuel st u rest hq] at h
      rw [discoverAux_queue_cons_succ fetch abs (fuel + 1) st u rest hq]
      exact ih _ _ h

theorem discoverAux_mono_le (fetch : String → Option Node) (abs : String → String → String)
    (fuel fuel' : Nat) (st r : DState) (hle : fuel ≤ fuel')
    (h : discoverAux fetch abs fuel st = some r) : discoverAux fetch abs fuel' st = some r := by
  induction fuel' , hle using Nat.le_induction with
  | base => exact h
  | succ n hn ih => exact discoverAux_mono fetch abs n st r ih

theorem insertSet_nodup (l : List String) (x : String) (h : l.Nodup) :
    (insertSet l x).Nodup := by
  unfold insertSet
  by_cases hx : x ∈ l
  · rw [if_pos hx]
    exact h
  · rw [if_neg hx]
    simp [List.nodup_append, h, hx]

theorem insertSet_toFinset (l : List String) (x : String) :
    (insertSet l x).toFinset = insert x l.toFinset := by
  unfold insertSet
  by_cases hx : x ∈ l
  · rw [if_pos hx]
    exact (Finset.insert_eq_self.mpr (List.mem_toFinset.mpr hx)).symm
  · rw [if_neg hx]
    ext y
    simp [or_comm]

theorem insertAllSet_nodup (xs : List String) :
    ∀ l : List String, l.Nodup → (insertAllSet l xs).Nodup := by
  induction xs with
  | nil => intro l h; exact h
  | cons x xs ih =>
    intro l h
    exact ih (insertSet l x) (insertSet_nodup l x h)

theorem insertAllSet_toFinset (xs : List String) :
    ∀ l : List String, (insertAllSet l xs).toFinset = l.toFinset ∪ xs.toFinset := by
  induction xs with
  | nil => intro l; simp [insertAllSet]
  | cons x xs ih =>
    intro l
    have : insertAllSet l (x :: xs) = insertAllSet (insertSet l x) xs := rfl
    rw [this, ih, insertSet_toFinset]
    ext y
    simp


/-- Invariant for C2: the fetch trace is exactly the visited list, which
never repeats an element. -/
def FetchInv (st : DState) : Prop := st.fetchTrace = st.visited ∧ st.visited.Nodup

theorem discoverStep_fetchInv (fetch : String → Option Node) (abs : String → String → String) :
    ∀ (u : String) (rest : List String) (st : DState), st.queue = u :: rest →
      FetchInv st → FetchInv (discoverStep fetch abs u rest st) := by
  intro u rest st _ h
  unfold discoverStep
  by_cases hu : u ∈ st.visited
  · rw [if_pos hu]
    exact h
  · rw [if_neg hu]
    constructor
    · rw [visitPage_fetchTrace, visitPage_visited]
      dsimp only
      rw [h.1]
    · rw [visitPage_visited]
      dsimp only
      simp [List.nodup_append, h.2, hu]

/-- C2: over a whole run of `discover_product_urls`, no listing URL is passed
to `fetch_html` twice — the fetch trace of the final state has no
duplicates — whatever the listing graph, including ones that enqueue the
same URL twice. -/
theorem C2_no_page_fetched_twice (fetch : String → Option Node) (abs : String → String → String)
    (start : List String) (fuel : Nat) (r : DState)
    (h : discoverAux fetch abs fuel (initDState start) = some r) : r.fetchTrace.Nodup := by
  have hinv := discoverAux_induct fetch abs FetchInv (discoverStep_fetchInv fetch abs)
    fuel (initDState start) r h ⟨rfl, List.nodup_nil⟩
  rw [hinv.1]
  exact hinv.2

/-- `a.button.product_type_simple` product-card anchor. -/
def prodAnchor (href : String) : Node :=
  Node.elem "a" none ["button", "product_type_simple"] (some href) []

/-- `a.next.page-numbers` pagination anchor. -/
def nextAnchor (href : String) : Node :=
  Node.elem "a" none ["next", "page-numbers"] (some href) []

/-- A two-page listing graph with a pagination cycle: L1 → L2 → L1, with a
product link duplicated across the pages. -/
def cycFetch : String → Option Node := fun u =>
  if u = "L1" then
    some (Node.elem "html" none [] none [prodAnchor "P1", prodAnchor "P2", nextAnchor "L2"])
  else if u = "L2" then
    some (Node.elem "html" none [] none [prodAnchor "P2", nextAnchor "L1"])
  else none

/-- Identity URL resolution: the graphs used here carry absolute URLs. -/
def absId : String → String → String := fun _ h => h

/-- Witness for C2 on the cyclic two-page graph. -/
theorem C2_no_page_fetched_twice_witness :
    discoverAux cycFetch absId 2 (initDState ["L1"]) =
      some ⟨[], ["L1", "L2"], ["P1", "P2"], ["P1", "P2", "P2"], ["L1", "L2"], ["L2"]⟩ ∧
    (["L1", "L2"] : List String).Nodup :=
  ⟨rfl, C2_no_page_fetched_twice cycFetch absId ["L1"] 2 _ rfl⟩

/-- Invariant for C3: the product set-list has no duplicates and holds
exactly the URLs of the product trace. -/
def ProdInv (st : DState) : Prop :=
  st.products.Nodup ∧ st.products.toFinset = st.prodTrace.toFinset

theorem discoverStep_prodInv (fetch : String → Option Node) (abs : String → String → String) :
    ∀ (u : String) (rest : List String) (st : DState), st.queue = u :: rest →
      ProdInv st → ProdInv (discoverStep fetch abs u rest st) := by
  intro u rest st _ h
  unfold discoverStep
  by_cases hu : u ∈ st.visited
  · rw [if_pos hu]
    exact h
  · rw [if_neg hu]
    rcases visitPage_products_prodTrace fetch abs u { st with queue := rest } with
      ⟨hp, ht⟩ | ⟨soup, _, hp, ht⟩
    · rw [ProdInv, hp, ht]
      exact h
    · rw [ProdInv, hp, ht]
      dsimp only
      refine ⟨insertAllSet_nodup _ _ h.1, ?_⟩
      rw [insertAllSet_toFinset, h.2]
      ext y
      simp

/-- C3: a finished `discover_product_urls` run returns the duplicate-free
sorted list of all distinct discovered product URLs: the output is sorted in
string order, has no duplicates, its length is the number of distinct URLs
ever collected from listing pages, and the same output is produced by any
larger iteration budget (fixed-graph determinism of the embedding). -/
theorem C3_sorted_dedup_output (fetch : String → Option Node) (abs : String → String → String)
    (start : List String) (fuel : Nat) (r : DState)
    (h : discoverAux fetch abs fuel (initDState start) = some r) :
    discover_product_urls fetch abs fuel start =
      some (List.insertionSort (· ≤ ·) r.products) ∧
    List.Sorted (· ≤ ·) (List.insertionSort (· ≤ ·) r.products) ∧
    (List.insertionSort (· ≤ ·) r.products).Nodup ∧
    (List.insertionSort (· ≤ ·) r.products).length = r.prodTrace.toFinset.card ∧
    (∀ fuel', fuel ≤ fuel' → discover_product_urls fetch abs fuel' start =
      some (List.insertionSort (· ≤ ·) r.products)) := by
  have hinv := discoverAux_induct fetch abs ProdInv (discoverStep_prodInv fetch abs)
    fuel (initDState start) r h ⟨List.nodup_nil, rfl⟩
  have hnd : (List.insertionSort (· ≤ ·) r.products).Nodup :=
    (List.perm_insertionSort (· ≤ ·) r.products).symm.nodup hinv.1
  refine ⟨?_, List.sorted_insertionSort _ _, hnd, ?_, ?_⟩
  · unfold discover_product_urls
    rw [h]
    rfl
  · rw [(List.perm_insertionSort (· ≤ ·) r.products).length_eq, ← hinv.2,
      List.toFinset_card_of_nodup hinv.1]
  · intro fuel' hle
    unfold discover_product_urls
    rw [discoverAux_mono_le fetch abs fuel fuel' _ r hle h]
    rfl

/-- Witness for C3 on the cyclic two-page graph: `P2` appears on both pages
but once in the output. -/
theorem C3_sorted_dedup_output_witness :
    discover_product_urls cycFetch absId 2 ["L1"] =
      some (List.insertionSort (· ≤ ·) ["P1", "P2"]) ∧
    List.Sorted (· ≤ ·) (List.insertionSort (· ≤ ·) ["P1", "P2"]) ∧
    (List.insertionSort (· ≤ ·) ["P1", "P2"]).Nodup ∧
    (List.insertionSort (· ≤ ·) ["P1", "P2"]).length =
      (["P1", "P2", "P2"] : List String).toFinset.card ∧
    (∀ fuel', 2 ≤ fuel' → discover_product_urls cycFetch absId fuel' ["L1"] =
      some (List.insertionSort (· ≤ ·) ["P1", "P2"])) :=
  C3_sorted_dedup_output cycFetch absId ["L1"] 2
    ⟨[], ["L1", "L2"], ["P1", "P2"], ["P1", "P2", "P2"], ["L1", "L2"], ["L2"]⟩ rfl

/-- A listing graph in which the next links of two pages point to the same not-yet
visited page `C`: start pages `A` and `B` both link to `C`. -/
def dupFetch : String → Option Node := fun u =>
  if u = "A" then some (Node.elem "html" none [] none [prodAnchor "PA", nextAnchor "C"])
  else if u = "B" then some (Node.elem "html" none [] none [nextAnchor "C"])
  else if u = "C" then some (Node.elem "html" none [] none [prodAnchor "PC"])
  else none

/-- C9 counterexample: on `dupFetch`, URL `C` is appended to the frontier
twice — once while processing `A` and once while processing `B`, when `C` is
queued but not yet visited — so "every URL is enqueued at most once" fails. -/
theorem C9_enqueued_twice_counterexample :
    discoverAux dupFetch absId 4 (initDState ["A", "B"]) =
      some ⟨[], ["A", "B", "C"], ["PA", "PC"], ["PA", "PC"], ["A", "B", "C"], ["C", "C"]⟩ ∧
    (["C", "C"] : List String).count "C" = 2 :=
  ⟨rfl, rfl⟩

/-- C9 (amended): a URL may be enqueued more than once while it is not yet
visited; what the dequeue-time visited check does guarantee is that each
processed page appends at most one URL, that a URL already visited (or equal
to the page being processed) is never appended, and that every URL is
dequeued-and-fetched at most once over a whole run. -/
theorem C9_enqueue_guarantees :
    (∀ (fetch : String → Option Node) (abs : String → String → String) (u : String)
        (st : DState),
      (visitPage fetch abs u st).queue = st.queue ∨
      ∃ soup nu, fetch u = some soup ∧ nextUrlOf abs u soup = some nu ∧
        nu ∉ st.visited ++ [u] ∧ (visitPage fetch abs u st).queue = st.queue ++ [nu]) ∧
    (∀ (fetch : String → Option Node) (abs : String → String → String) (start : List String)
        (fuel : Nat) (r : DState) (u : String),
      discoverAux fetch abs fuel (initDState start) = some r → r.fetchTrace.count u ≤ 1) := by
  refine ⟨visitPage_queue_cases, fun fetch abs start fuel r u h => ?_⟩
  have hinv := discoverAux_induct fetch abs FetchInv (discoverStep_fetchInv fetch abs)
    fuel (initDState start) r h ⟨rfl, List.nodup_nil⟩
  rw [hinv.1]
  exact List.nodup_iff_count_le_one.mp hinv.2 u

/-- Witness for the amended C9 on the double-enqueue graph. -/
theorem C9_enqueue_guarantees_witness :
    ((visitPage dupFetch absId "A" (initDState ["B"])).queue = (initDState ["B"]).queue ∨
      ∃ soup nu, dupFetch "A" = some soup ∧ nextUrlOf absId "A" soup = some nu ∧
        nu ∉ (initDState ["B"]).visited ++ ["A"] ∧
        (visitPage dupFetch absId "A" (initDState ["B"])).queue =
          (initDState ["B"]).queue ++ [nu]) ∧
    (["A", "B", "C"] : List String).count "C" ≤ 1 :=
  ⟨C9_enqueue_guarantees.1 dupFetch absId "A" (initDState ["B"]),
   C9_enqueue_guarantees.2 dupFetch absId ["A", "B"] 4
     ⟨[], ["A", "B", "C"], ["PA", "PC"], ["PA", "PC"], ["A", "B", "C"], ["C", "C"]⟩ "C" rfl⟩

/-- A `li.product` card holding one product link. -/
def csvProdLi (href : String) : Node :=
  Node.elem "li" none ["product"] none
    [Node.elem "a" none ["woocommerce-LoopProduct-link"] (some href) []]

/-- An `a.next` pagination anchor of the CSV variant. -/
def csvNextA (href : String) : Node := Node.elem "a" none ["next"] (some href) []

/-- First CSV listing page: no product cards, but a next link to `Q2`. -/
def q1Doc : Node := Node.elem "html" none [] none [csvNextA "Q2"]

/-- Second CSV listing page: one product card, next link to itself. -/
def q2Doc : Node := Node.elem "html" none [] none [csvProdLi "PQ", csvNextA "Q2"]

def csvNoProdFetch : String → Option Node := fun u =>
  if u = "Q1" then some q1Doc
  else if u = "Q2" then some q2Doc
  else none

/-- C4 counterexample (CSV variant): on a first listing page with zero
product links but a next link to a page that does contain a product, the
loop breaks at the first page — the next-page link is not followed, no
product is collected, and only `Q1` is ever loaded. -/
theorem C4_csv_stops_counterexample :
    csvIter csvNoProdFetch (fun _ => some plainDoc) 5 (initCsvState "Q1") =
      some ⟨"Q1", [], [], ["Q1"]⟩ ∧
    getNextPage q1Doc = some "Q2" ∧
    parseProductLinks q1Doc = [] ∧
    parseProductLinks q2Doc = ["PQ"] :=
  ⟨rfl, rfl, rfl, rfl⟩

/-- C4 (amended): in the JSON-variant BFS a listing page with zero product
links still has its (unvisited) next-page link enqueued; in the CSV variant
the pagination loop instead stops at a page with zero product links, without
following its next link ("Nenhum produto encontrado. Encerrando."). -/
theorem C4_zero_product_pages :
    (∀ (fetch : String → Option Node) (abs : String → String → String) (u : String)
        (st : DState) (soup : Node) (nu : String),
      fetch u = some soup → productHrefs soup = [] → nextUrlOf abs u soup = some nu →
      nu ∉ st.visited ++ [u] → (visitPage fetch abs u st).queue = st.queue ++ [nu]) ∧
    (∀ (pc pf : String → Option Node) (st : CsvState) (h : Node) (fuel : Nat),
      pc st.current = some h → parseProductLinks h = [] →
      csvIter pc pf (fuel + 1) st = some { st with pages := st.pages ++ [st.current] }) := by
  constructor
  · intro fetch abs u st soup nu hf hzero hn hnv
    unfold visitPage
    rw [hf]
    dsimp only
    rw [hn]
    dsimp only
    rw [if_neg hnv]
  · intro pc pf st h fuel hpc hlinks
    unfold csvIter
    rw [hpc]
    dsimp only
    rw [hlinks, if_pos rfl]

/-- Witness for the amended C4: processing the zero-product page `B` of
`dupFetch` still enqueues `C` (JSON variant), while the CSV loop on `Q1`
stops immediately. -/
theorem C4_zero_product_pages_witness :
    (visitPage dupFetch absId "B" ⟨[], ["A"], ["PA"], ["PA"], ["A"], ["C"]⟩).queue =
      [] ++ ["C"] ∧
    csvIter csvNoProdFetch (fun _ => some plainDoc) 1 (initCsvState "Q1") =
      some { initCsvState "Q1" with pages := (initCsvState "Q1").pages ++ ["Q1"] } :=
  ⟨C4_zero_product_pages.1 dupFetch absId "B"
      ⟨[], ["A"], ["PA"], ["PA"], ["A"], ["C"]⟩ _ "C" rfl rfl rfl (by decide),
   C4_zero_product_pages.2 csvNoProdFetch (fun _ => some plainDoc)
      (initCsvState "Q1") q1Doc 0 rfl rfl⟩

/-! ## Termination of the discovery loop, and the CSV pagination loop -/

/-- The next-page URL a fetched page contributes, as a function of the URL
alone (the graph is fixed). -/
def nextTarget (fetch : String → Option Node) (abs : String → String → String)
    (u : String) : Option String :=
  (fetch u).bind (nextUrlOf abs u)

theorem card_sdiff_visit (S : Finset String) (v : List String) (u : String)
    (huS : u ∈ S) (huv : u ∉ v) :
    (S \ (v ++ [u]).toFinset).card + 1 ≤ (S \ v.toFinset).card := by
  have h1 : (v ++ [u]).toFinset = insert u v.toFinset := by
    ext y
    simp [or_comm]
  have h2 : S \ insert u v.toFinset = (S \ v.toFinset).erase u := by
    ext y
    simp only [Finset.mem_sdiff, Finset.mem_erase, Finset.mem_insert]
    tauto
  have hmem : u ∈ S \ v.toFinset := Finset.mem_sdiff.mpr ⟨huS, by simp [huv]⟩
  rw [h1, h2, Finset.card_erase_of_mem hmem]
  have hpos : 0 < (S \ v.toFinset).card := Finset.card_pos.mpr ⟨u, hmem⟩
  omega

/-- Termination of `discover_product_urls`: when the reachable listing URLs
stay inside a finite set `S` closed under next-page links, a budget of
`2·|S| + |queue|` iterations empties the frontier. -/
theorem discoverAux_terminates (fetch : String → Option Node) (abs : String → String → String)
    (S : List String) :
    ∀ (fuel : Nat) (st : DState),
      (∀ u ∈ st.queue, u ∈ S) →
      (∀ u ∈ S, (nextTarget fetch abs u).all (fun nu => decide (nu ∈ S)) = true) →
      2 * (S.toFinset \ st.visited.toFinset).card + st.queue.length ≤ fuel →
      ∃ r, discoverAux fetch abs fuel st = some r := by
  intro fuel
  induction fuel with
  | zero =>
    intro st hq hcl hm
    have hnil : st.queue = [] := by
      cases hq' : st.queue with
      | nil => rfl
      | cons a l =>
        rw [hq'] at hm
        simp [List.length_cons] at hm
    exact ⟨st, discoverAux_queue_nil fetch abs 0 st hnil⟩
  | succ fuel ih =>
    intro st hq hcl hm
    cases hq' : st.queue with
    | nil => exact ⟨st, discoverAux_queue_nil fetch abs (fuel + 1) st hq'⟩
    | cons u rest =>
      rw [discoverAux_queue_cons_succ fetch abs fuel st u rest hq']
      rw [hq'] at hm
      simp only [List.length_cons] at hm
      unfold discoverStep
      by_cases hu : u ∈ st.visited
      · rw [if_pos hu]
        apply ih
        · intro v hv
          exact hq v (hq' ▸ List.mem_cons_of_mem u hv)
        · exact hcl
        · dsimp only
          omega
      · rw [if_neg hu]
        have hus : u ∈ S := hq u (hq' ▸ List.mem_cons_self u rest)
        have hvis : (visitPage fetch abs u { st with queue := rest }).visited
            = st.visited ++ [u] := visitPage_visited fetch abs u _
        have hcard := card_sdiff_visit S.toFinset st.visited u
          (List.mem_toFinset.mpr hus) hu
        apply ih
        · intro v hv
          rcases visitPage_queue_cases fetch abs u { st with queue := rest } with
            hqc | ⟨soup, nu, hf, hn, hnv, hqc⟩
          · rw [hqc] at hv
            exact hq v (hq' ▸ List.mem_cons_of_mem u hv)
          · rw [hqc] at hv
            rcases List.mem_append.mp hv with h1 | h1
            · exact hq v (hq' ▸ List.mem_cons_of_mem u h1)
            · rw [List.mem_singleton.mp h1]
              have hall := hcl u hus
              have hnt : nextTarget fetch abs u = some nu := by
                rw [nextTarget, hf]
                exact hn
              rw [hnt] at hall
              simpa using hall
        · exact hcl
        · have hqlen : (visitPage fetch abs u { st with queue := rest }).queue.length
              ≤ rest.length + 1 := by
            rcases visitPage_queue_cases fetch abs u { st with queue := rest } with
              hqc | ⟨soup, nu, hf, hn, hnv, hqc⟩
            · rw [hqc]
              dsimp only
              omega
            · rw [hqc]
              simp
          rw [hvis]
          have hm2 : 2 * (S.toFinset \ st.visited.toFinset).card + rest.length + 1
              ≤ fuel + 1 := by omega
          omega

/-- `_parse_product_links` and friends never touch `current_url`, and the
inner product loop keeps it unchanged. -/
theorem csvProcessLinks_current (pf : String → Option Node) :
    ∀ (links : List String) (st : CsvState),
      (csvProcessLinks pf links st).current = st.current := by
  intro links
  induction links with
  | nil => intro st; rfl
  | cons link rest ih =>
    intro st
    have hstep : csvProcessLinks pf (link :: rest) st = csvProcessLinks pf rest
        (if link ∈ st.seen then st
         else
           (match pf link with
            | none => { st with seen := st.seen ++ [link] }
            | some _ =>
              { st with seen := st.seen ++ [link], produtos := st.produtos ++ [link] })) :=
      rfl
    rw [hstep]
    rw [ih]
    by_cases hmem : link ∈ st.seen
    · rw [if_pos hmem]
    · rw [if_neg hmem]
      cases pf link with
      | none => rfl
      | some d => rfl

/-- Every `break` condition of the CSV pagination loop yields an exit within
one iteration: load failure, a page with no product links, no next link, or
a next link equal to the current page. -/
theorem csvIter_exits (pc pf : String → Option Node) (st : CsvState) (fuel : Nat)
    (hcond : pc st.current = none ∨
      ∃ h, pc st.current = some h ∧
        (parseProductLinks h = [] ∨ getNextPage h = none ∨
          getNextPage h = some st.current)) :
    ∃ r, csvIter pc pf (fuel + 1) st = some r := by
  unfold csvIter
  rcases hcond with hnone | ⟨h, hsome, hcase⟩
  · rw [hnone]
    exact ⟨st, rfl⟩
  · rw [hsome]
    dsimp only
    by_cases hl : parseProductLinks h = []
    · rw [hl, if_pos rfl]
      exact ⟨_, rfl⟩
    · rw [if_neg hl]
      rcases hcase with hc | hc | hc
      · exact absurd hc hl
      · rw [hc]
        exact ⟨_, rfl⟩
      · rw [hc]
        dsimp only
        rw [csvProcessLinks_current pf]
        dsimp only
        rw [if_pos rfl]
        exact ⟨_, rfl⟩

/-- First page of a two-page pagination cycle of the CSV variant. -/
def r1Doc : Node := Node.elem "html" none [] none [csvProdLi "PR", csvNextA "R2"]

/-- Second page of the cycle, linking back to the first. -/
def r2Doc : Node := Node.elem "html" none [] none [csvProdLi "PR", csvNextA "R1"]

/-- The cyclic CSV listing graph `R1 → R2 → R1`, both pages with products. -/
def cyc2Fetch : String → Option Node := fun u =>
  if u = "R1" then some r1Doc else if u = "R2" then some r2Doc else none

/-- On the two-page cycle the `run` pagination loop never reaches a `break`:
every iteration budget is exhausted. -/
theorem csvIter_cycle_none (pf : String → Option Node) :
    ∀ (fuel : Nat) (st : CsvState), st.current = "R1" ∨ st.current = "R2" →
      csvIter cyc2Fetch pf fuel st = none := by
  intro fuel
  induction fuel with
  | zero => intro st _; rfl
  | succ fuel ih =>
    intro st hcur
    unfold csvIter
    rcases hcur with h | h
    · rw [show cyc2Fetch st.current = some r1Doc by rw [h]; rfl]
      dsimp only
      rw [show parseProductLinks r1Doc = ["PR"] from rfl]
      rw [if_neg (by simp : ¬(["PR"] : List String) = [])]
      rw [show getNextPage r1Doc = some "R2" from rfl]
      dsimp only
      rw [csvProcessLinks_current pf]
      dsimp only
      rw [h]
      rw [if_neg (by simp : ¬("R2" : String) = "R1")]
      exact ih _ (Or.inr rfl)
    · rw [show cyc2Fetch st.current = some r2Doc by rw [h]; rfl]
      dsimp only
      rw [show parseProductLinks r2Doc = ["PR"] from rfl]
      rw [if_neg (by simp : ¬(["PR"] : List String) = [])]
      rw [show getNextPage r2Doc = some "R1" from rfl]
      dsimp only
      rw [csvProcessLinks_current pf]
      dsimp only
      rw [h]
      rw [if_neg (by simp : ¬("R1" : String) = "R2")]
      exact ih _ (Or.inl rfl)

/-- C1 counterexample: on the two-page pagination cycle `R1 ⇄ R2` the
pagination loop of `VinilSulScraper.run` does not terminate — its only
cycle guard is `next_url == current_url`, which a longer cycle never
triggers — so the claim fails for the CSV variant. -/
theorem C1_csv_cycle_counterexample :
    ¬ CsvRunTerminates cyc2Fetch (fun _ => some plainDoc) (initCsvState "R1") := by
  rintro ⟨fuel, r, hr⟩
  rw [csvIter_cycle_none (fun _ => some plainDoc) fuel (initCsvState "R1") (Or.inl rfl)] at hr
  cases hr

/-- C1 (amended): the frontier loop of `discover_product_urls` empties its
queue within `2·|S| + |start|` iterations whenever the reachable listing
URLs stay inside a finite set `S` closed under next-page links — pagination
cycles included; the CSV-variant pagination loop exits when a page fails to
load, has no product links, has no next link, or has a next link equal to
the current page (a self-loop cycle), but not on longer pagination cycles. -/
theorem C1_traversal_termination :
    (∀ (fetch : String → Option Node) (abs : String → String → String)
        (S start : List String),
      (∀ u ∈ start, u ∈ S) →
      (∀ u ∈ S, (nextTarget fetch abs u).all (fun nu => decide (nu ∈ S)) = true) →
      ∃ r, discoverAux fetch abs (2 * S.toFinset.card + start.length)
        (initDState start) = some r ∧ r.queue = []) ∧
    (∀ (pc pf : String → Option Node) (st : CsvState) (fuel : Nat),
      (pc st.current = none ∨
        ∃ h, pc st.current = some h ∧
          (parseProductLinks h = [] ∨ getNextPage h = none ∨
            getNextPage h = some st.current)) →
      ∃ r, csvIter pc pf (fuel + 1) st = some r) := by
  constructor
  · intro fetch abs S start hstart hcl
    obtain ⟨r, hr⟩ := discoverAux_terminates fetch abs S
      (2 * S.toFinset.card + start.length) (initDState start) hstart hcl
      (by simp [initDState])
    exact ⟨r, hr, discoverAux_final_queue fetch abs _ _ r hr⟩
  · exact csvIter_exits

/-- Witness for the amended C1: the cyclic JSON-variant graph `L1 ⇄ L2`
terminates with an empty queue, and the CSV loop exits on a self-loop
page. -/
theorem C1_traversal_termination_witness :
    (∃ r, discoverAux cycFetch absId
        (2 * (["L1", "L2"] : List String).toFinset.card + (["L1"] : List String).length)
        (initDState ["L1"]) = some r ∧ r.queue = []) ∧
    (∃ r, csvIter csvNoProdFetch (fun _ => some plainDoc) (3 + 1)
        (initCsvState "Q2") = some r) :=
  ⟨C1_traversal_termination.1 cycFetch absId ["L1", "L2"] ["L1"] (by decide) (by decide),
   C1_traversal_termination.2 csvNoProdFetch (fun _ => some plainDoc) (initCsvState "Q2") 3
     (Or.inr ⟨q2Doc, rfl, Or.inr (Or.inr rfl)⟩)⟩
